import Mathlib

/-!
Verification of the `NEWLINE` adapter (`lintrunner_adapters/adapters/newlines_linter.py`).

The file classifier `check_file` is embedded shallowly:

* the raw bytes of the file are passed as a `List Nat` (each entry a byte
  value; `open(filename, "rb")` followed by `f.readlines()` becomes the pure
  function `readlines` applied to that list);
* the module-level constant `IS_WINDOWS` (imported from the package root)
  becomes an explicit boolean parameter `is_windows`;
* Python `str` values produced by `bytes.decode("utf-8")` are represented by
  their UTF-8 byte encodings.  Decoding is a bijection between valid UTF-8
  byte strings and text, so every string operation the source performs
  (`rstrip("\x0a")`, concatenation with `"\x0a"`) is mirrored exactly by the
  corresponding byte-level operation: a trailing `0x0A` byte of a valid
  UTF-8 string is always the character U+000A, never part of a multi-byte
  sequence, because continuation bytes are `0x80`-`0xBF`.
* `bytes.decode("utf-8")` either succeeds or raises `UnicodeDecodeError`;
  this becomes `decode_utf8 : List Nat → Option (List Nat)` guarded by a
  full RFC-3629 validator `utf8Valid` (the exact acceptance condition of
  CPython's strict UTF-8 decoder: no surrogates, no overlongs, max U+10FFFF).
-/

namespace NewlinesLinter

/-- ASCII line feed, `NEWLINE = 10` in the source. -/
def NEWLINE : Nat := 10

/-- ASCII carriage return, `CARRIAGE_RETURN = 13` in the source. -/
def CARRIAGE_RETURN : Nat := 13

/-- Constant `LINTER_CODE = "NEWLINE"`. -/
def LINTER_CODE : String := "NEWLINE"

/-- Severity of a lint message.  Modelled from the spec: the class
`LintSeverity` lives in the package root (not under the embedded sources);
the spec fixes severity at "error" for every finding this checker produces,
and the adapter only ever uses `LintSeverity.ERROR`. -/
inductive LintSeverity where
  | ERROR
deriving DecidableEq, Repr

/-- One lint finding.  Modelled from the spec: the record `LintMessage`
lives in the package root (not under the embedded sources); its fields are
exactly those the adapter passes by keyword and the spec lists in its data
model (path, line, char, code, severity, name, original, replacement,
description).  `original` and `replacement` hold the UTF-8 bytes of the
decoded text, or `none`. -/
structure LintMessage where
  path : String
  line : Option Nat
  char : Option Nat
  code : String
  severity : LintSeverity
  name : String
  original : Option (List Nat)
  replacement : Option (List Nat)
  description : String
deriving DecidableEq, Repr

/-- Embedding of `f.readlines()` on the raw bytes: split into physical
lines, each line being the maximal run up to and including a `0x0A` byte,
with a final unterminated fragment kept as a last line. -/
def readlines : List Nat → List (List Nat)
  | [] => []
  | b :: rest =>
    if b = NEWLINE then
      [NEWLINE] :: readlines rest
    else
      match readlines rest with
      | [] => [[b]]
      | l :: ls => (b :: l) :: ls

/-- Acceptance automaton of CPython's strict UTF-8 decoder (RFC 3629).
The first argument counts continuation bytes still expected, and the next
two give the allowed range for the next byte when a continuation is
expected.  From the start state a byte is consumed as ASCII (`0x00`-`0x7F`)
or as a lead byte: 2-byte leads `0xC2`-`0xDF`; 3-byte leads `0xE0` (second
byte restricted high to exclude overlongs), `0xE1`-`0xEC`, `0xED` (second
byte restricted low to exclude surrogates), `0xEE`-`0xEF`; 4-byte leads
`0xF0` (restricted), `0xF1`-`0xF3`, `0xF4` (restricted to stay below
U+110000); anything else (bare continuations, `0xC0`/`0xC1`, `0xF5`-`0xFF`)
is rejected. -/
def utf8ValidFrom : Nat → Nat → Nat → List Nat → Bool
  | 0, _, _, [] => true
  | 0, _, _, b :: rest =>
      if b ≤ 127 then utf8ValidFrom 0 0 0 rest
      else if 194 ≤ b ∧ b ≤ 223 then utf8ValidFrom 1 128 191 rest
      else if b = 224 then utf8ValidFrom 2 160 191 rest
      else if (225 ≤ b ∧ b ≤ 236) ∨ b = 238 ∨ b = 239 then utf8ValidFrom 2 128 191 rest
      else if b = 237 then utf8ValidFrom 2 128 159 rest
      else if b = 240 then utf8ValidFrom 3 144 191 rest
      else if 241 ≤ b ∧ b ≤ 243 then utf8ValidFrom 3 128 191 rest
      else if b = 244 then utf8ValidFrom 3 128 143 rest
      else false
  | _ + 1, _, _, [] => false
  | k + 1, lo, hi, b :: rest =>
      if lo ≤ b ∧ b ≤ hi then utf8ValidFrom k 128 191 rest else false

/-- Success condition of `bytes.decode("utf-8")`: run the automaton from
its start state. -/
def utf8Valid (bs : List Nat) : Bool := utf8ValidFrom 0 0 0 bs

/-- Embedding of `bytes.decode("utf-8")`: the decoded string, represented
by its UTF-8 encoding, or `none` when CPython would raise
`UnicodeDecodeError`. -/
def decode_utf8 (bs : List Nat) : Option (List Nat) :=
  if utf8Valid bs then some bs else none

/-- Position-tracking twin of `utf8ValidFrom`: the same automaton, but on
rejection it reports the first error the way CPython's strict UTF-8 decoder
does — the byte range `[start, stop)` of the offending sequence and the
reason string.  `startPos` is the position of the current character's lead
byte and `pos` the position of the next byte to read.  An unacceptable byte
in the start state is an "invalid start byte" (range is that byte alone); a
lead byte whose continuation bytes run out at end of input is "unexpected
end of data" (range is the truncated sequence read so far); a byte outside
the expected continuation range is an "invalid continuation byte" (range is
the bytes accepted before it, as CPython reports).
`utf8Scan startPos pos k lo hi bs = none` exactly when
`utf8ValidFrom k lo hi bs = true` (`utf8Scan_none_iff` below). -/
def utf8Scan : Nat → Nat → Nat → Nat → Nat → List Nat → Option (Nat × Nat × String)
  | _, _, 0, _, _, [] => none
  | _, pos, 0, _, _, b :: rest =>
      if b ≤ 127 then utf8Scan (pos + 1) (pos + 1) 0 0 0 rest
      else if 194 ≤ b ∧ b ≤ 223 then utf8Scan pos (pos + 1) 1 128 191 rest
      else if b = 224 then utf8Scan pos (pos + 1) 2 160 191 rest
      else if (225 ≤ b ∧ b ≤ 236) ∨ b = 238 ∨ b = 239 then utf8Scan pos (pos + 1) 2 128 191 rest
      else if b = 237 then utf8Scan pos (pos + 1) 2 128 159 rest
      else if b = 240 then utf8Scan pos (pos + 1) 3 144 191 rest
      else if 241 ≤ b ∧ b ≤ 243 then utf8Scan pos (pos + 1) 3 128 191 rest
      else if b = 244 then utf8Scan pos (pos + 1) 3 128 143 rest
      else some (pos, pos + 1, "invalid start byte")
  | startPos, pos, _ + 1, _, _, [] => some (startPos, pos, "unexpected end of data")
  | startPos, pos, k + 1, lo, hi, b :: rest =>
      if lo ≤ b ∧ b ≤ hi then utf8Scan startPos (pos + 1) k 128 191 rest
      else some (startPos, pos, "invalid continuation byte")

/-- Lowercase hexadecimal digit. -/
def hexDigit (n : Nat) : String :=
  ["0", "1", "2", "3", "4", "5", "6", "7", "8", "9", "a", "b", "c", "d", "e", "f"].getD n "0"

/-- Two-digit lowercase hexadecimal rendering of a byte (CPython's `0x%02x`). -/
def hexByte (b : Nat) : String := hexDigit (b / 16) ++ hexDigit (b % 16)

/-- The message `str(err)` of the `UnicodeDecodeError` raised by a strict
UTF-8 decode of `bs`, as CPython formats it
(`PyUnicodeDecodeError.__str__`): for a one-byte error range
`\x27utf-8\x27 codec can\x27t decode byte 0xXX in position N: REASON`, for
a longer range
`\x27utf-8\x27 codec can\x27t decode bytes in position N-M: REASON`.
Empty when the bytes decode cleanly (then no error is ever raised). -/
def unicode_decode_error_message (bs : List Nat) : String :=
  match utf8Scan 0 0 0 0 0 bs with
  | some (start, stop, reason) =>
    if stop = start + 1 then
      "\x27utf-8\x27 codec can\x27t decode byte 0x" ++ hexByte (bs.getD start 0)
        ++ " in position " ++ toString start ++ ": " ++ reason
    else
      "\x27utf-8\x27 codec can\x27t decode bytes in position " ++ toString start
        ++ "-" ++ toString (stop - 1) ++ ": " ++ reason
  | none => ""

/-- Embedding of `s.rstrip("\x0a")` on the byte representation: drop every
trailing `0x0A` byte (in valid UTF-8 each such byte is the character
U+000A). -/
def rstripNewlines (bs : List Nat) : List Nat :=
  (bs.reverse.dropWhile (fun b => b == NEWLINE)).reverse

/-- The per-line DOS test of the scan loop,
`len(line) >= 2 and line[-1] == NEWLINE and line[-2] == CARRIAGE_RETURN`. -/
def is_dos_line (l : List Nat) : Bool :=
  2 ≤ l.length && l.getD (l.length - 1) 0 == NEWLINE
    && l.getD (l.length - 2) 0 == CARRIAGE_RETURN

/-- The loop body `lines[idx] = line[:-2] + b"\x0a"`, applied exactly to the
lines passing `is_dos_line`; other lines are left unchanged, so mapping
`fix_line` over the lines is the final state of the mutated `lines` list. -/
def fix_line (l : List Nat) : List Nat :=
  if is_dos_line l then l.take (l.length - 2) ++ [NEWLINE] else l

/-- The message built for a one-line, one-byte file (the source's comment:
"file is wrong whether or not the only byte is a newline"). -/
def bare_message (filename : String) : LintMessage :=
  { path := filename, line := none, char := none, code := LINTER_CODE
    severity := LintSeverity.ERROR, name := "testestTrailing newline"
    original := none, replacement := none
    description := "Trailing newline found. Run `lintrunner --take NEWLINE -a` to apply changes." }

/-- The message built when a decode fails, with `err` the message of the
raised exception.  The source's description is the f-string
`utf-8 decoding failed due to CLASSNAME:\x0aERR`; the class name of the
exception a strict `bytes.decode("utf-8")` raises is always
`UnicodeDecodeError`, and `err` is its `str` (`unicode_decode_error_message`
at the call sites), so the description is built here from the same three
pieces the f-string interpolates. -/
def decode_failure_message (filename : String) (err : String) : LintMessage :=
  { path := filename, line := none, char := none, code := LINTER_CODE
    severity := LintSeverity.ERROR, name := "Decoding failure"
    original := none, replacement := none
    description := "utf-8 decoding failed due to " ++ "UnicodeDecodeError" ++ ":\x0a" ++ err }

/-- The trailing-newline message: `original` is the decoded content,
`replacement` is `original.rstrip("\x0a") + "\x0a"`. -/
def trailing_message (filename : String) (original : List Nat) : LintMessage :=
  { path := filename, line := none, char := none, code := LINTER_CODE
    severity := LintSeverity.ERROR, name := "Trailing newline"
    original := some original
    replacement := some (rstripNewlines original ++ [NEWLINE])
    description := "Trailing newline found. Run `lintrunner --take NEWLINE -a` to apply changes." }

/-- The DOS-newline message with decoded pre-change and post-change text. -/
def dos_message (filename : String) (original replacement : List Nat) : LintMessage :=
  { path := filename, line := none, char := none, code := LINTER_CODE
    severity := LintSeverity.ERROR, name := "DOS newline"
    original := some original, replacement := some replacement
    description := "DOS newline found. Run `lintrunner --take NEWLINE -a` to apply changes." }

/-- Shallow embedding of `check_file`.  `content` is the byte sequence the
`open(..., "rb")`/`readlines` pair reads; `is_windows` is the package
constant `IS_WINDOWS`.  The branches follow the source in order: empty-file
return, one-line-one-byte return, trailing-newline check (guarded by a
decode of the joined lines), the Windows early return, then the DOS scan
whose mutated list is `lines.map fix_line` and whose `has_changes` flag is
`lines.any is_dos_line`; the DOS branch decodes the pre-change bytes and
then the post-change bytes, reporting the decode failure of whichever
decode raises first, as the source's single try block does. -/
def check_file (filename : String) (content : List Nat) (is_windows : Bool) :
    Option LintMessage :=
  let lines := readlines content
  if lines.length = 0 then
    none
  else if lines.length = 1 ∧ (lines.headD []).length = 1 then
    some (bare_message filename)
  else if (lines.getLastD []).length = 1 ∧ (lines.getLastD []).headD 0 = NEWLINE then
    match decode_utf8 lines.flatten with
    | none =>
        some (decode_failure_message filename (unicode_decode_error_message lines.flatten))
    | some original => some (trailing_message filename original)
  else if is_windows then
    none
  else if lines.any is_dos_line then
    match decode_utf8 lines.flatten with
    | none =>
        some (decode_failure_message filename (unicode_decode_error_message lines.flatten))
    | some original =>
      match decode_utf8 ((lines.map fix_line).flatten) with
      | none =>
          some (decode_failure_message filename
            (unicode_decode_error_message ((lines.map fix_line).flatten)))
      | some replacement => some (dos_message filename original replacement)
  else
    none

/-- Global description of the DOS fix, following the specification's words:
every carriage-return byte immediately followed by a line-feed byte is
dropped (the pair becomes a single line feed); every other byte, including
a lone carriage return not followed by a line feed, is unchanged. -/
def removeCRLF : List Nat → List Nat
  | [] => []
  | [b] => [b]
  | b :: c :: rest =>
    if b = CARRIAGE_RETURN ∧ c = NEWLINE then
      NEWLINE :: removeCRLF rest
    else
      b :: removeCRLF (c :: rest)

/-- Decidable test for a line whose last three bytes are `0x0D 0x0D 0x0A`
(a carriage return surviving in front of a fixed DOS line ending). -/
def ends_crcrlf (l : List Nat) : Bool :=
  match l.reverse with
  | 10 :: 13 :: 13 :: _ => true
  | _ => false

/-! ### Characterisation of `ends_crcrlf` -/

theorem ends_crcrlf_iff (l : List Nat) :
    ends_crcrlf l = true ↔
      ∃ p, l = p ++ [CARRIAGE_RETURN, CARRIAGE_RETURN, NEWLINE] := by
  constructor
  · intro h
    unfold ends_crcrlf at h
    split at h
    · rename_i t heq
      refine ⟨t.reverse, ?_⟩
      have h2 := congrArg List.reverse heq
      rw [List.reverse_reverse] at h2
      rw [h2]
      simp [NEWLINE, CARRIAGE_RETURN]
    · exact absurd h (by simp)
  · rintro ⟨p, rfl⟩
    have h2 : (p ++ [CARRIAGE_RETURN, CARRIAGE_RETURN, NEWLINE]).reverse =
        10 :: 13 :: 13 :: p.reverse := by
      simp [NEWLINE, CARRIAGE_RETURN]
    unfold ends_crcrlf
    rw [h2]

/-! ### Structure of `readlines` -/

theorem readlines_ne_nil (b : Nat) (rest : List Nat) : readlines (b :: rest) ≠ [] := by
  simp only [readlines]
  split
  · simp
  · split <;> simp

theorem readlines_eq_nil_iff (bs : List Nat) : readlines bs = [] ↔ bs = [] := by
  cases bs with
  | nil => simp [readlines]
  | cons b rest => simp [readlines_ne_nil]

theorem flatten_readlines (bs : List Nat) : (readlines bs).flatten = bs := by
  induction bs with
  | nil => simp [readlines]
  | cons b rest ih =>
    simp only [readlines]
    split
    · rename_i h
      simp [h, ih]
    · cases hrest : readlines rest with
      | nil =>
        have : rest = [] := (readlines_eq_nil_iff rest).mp hrest
        simp [this]
      | cons l ls =>
        rw [hrest] at ih
        simp only [List.flatten_cons] at ih ⊢
        simp [ih]

theorem readlines_singleton (b : Nat) : readlines [b] = [[b]] := by
  by_cases h : b = NEWLINE
  · simp [readlines, h]
  · simp [readlines, h]

theorem readlines_append_newline (xs ys : List Nat) :
    readlines (xs ++ NEWLINE :: ys) = readlines (xs ++ [NEWLINE]) ++ readlines ys := by
  induction xs with
  | nil => simp [readlines]
  | cons b xs ih =>
    simp only [List.cons_append, readlines]
    split
    · simp [ih]
    · simp only [List.append_eq]
      cases h2 : readlines (xs ++ [NEWLINE]) with
      | nil => exact absurd ((readlines_eq_nil_iff _).mp h2) (by simp)
      | cons l ls =>
        rw [ih, h2]
        simp

theorem readlines_getLast?_of_double (p : List Nat) :
    (readlines (p ++ [NEWLINE, NEWLINE])).getLast? = some [NEWLINE] := by
  have h : p ++ [NEWLINE, NEWLINE] = p ++ NEWLINE :: [NEWLINE] := rfl
  rw [h, readlines_append_newline]
  simp [readlines]

theorem readlines_getLast?_newline (bs : List Nat)
    (h : (readlines bs).getLast? = some [NEWLINE]) :
    bs = [NEWLINE] ∨ ∃ p, bs = p ++ [NEWLINE, NEWLINE] := by
  induction bs with
  | nil => simp [readlines] at h
  | cons b rest ih =>
    by_cases hb : b = NEWLINE
    · subst hb
      cases hR : readlines rest with
      | nil =>
        have hrest : rest = [] := (readlines_eq_nil_iff rest).mp hR
        exact Or.inl (by rw [hrest])
      | cons l ls =>
        have hred : readlines (NEWLINE :: rest) = [NEWLINE] :: readlines rest := by
          simp [readlines]
        rw [hred, hR, List.getLast?_cons_cons, ← hR] at h
        rcases ih h with h1 | ⟨p, hp⟩
        · exact Or.inr ⟨[], by rw [h1]; simp⟩
        · exact Or.inr ⟨NEWLINE :: p, by rw [hp]; simp⟩
    · cases hR : readlines rest with
      | nil =>
        simp only [readlines, if_neg hb, hR, List.getLast?_singleton,
          Option.some.injEq] at h
        injection h with h1 h2
        exact absurd h1 hb
      | cons l ls =>
        cases ls with
        | nil =>
          simp only [readlines, if_neg hb, hR, List.getLast?_singleton,
            Option.some.injEq] at h
          injection h with h1 h2
          exact absurd h1 hb
        | cons l2 ls2 =>
          simp only [readlines, if_neg hb, hR, List.getLast?_cons_cons] at h
          have h' : (readlines rest).getLast? = some [NEWLINE] := by
            rw [hR, List.getLast?_cons_cons]
            exact h
          rcases ih h' with h1 | ⟨p, hp⟩
          · rw [h1, readlines_singleton] at hR
            injection hR with hl hls
            exact absurd hls (by simp)
          · exact Or.inr ⟨b :: p, by rw [hp]; simp⟩

theorem line_guard_iff (l : List Nat) :
    (l.length = 1 ∧ l.headD 0 = NEWLINE) ↔ l = [NEWLINE] := by
  cases l with
  | nil => simp
  | cons x xs =>
    cases xs with
    | nil =>
      constructor
      · rintro ⟨h1, h2⟩
        simp only [List.headD_cons] at h2
        rw [h2]
      · intro h
        injection h with h1 h2
        subst h1
        exact ⟨rfl, rfl⟩
    | cons y ys => simp

theorem bare_guard_iff (bs : List Nat) :
    ((readlines bs).length = 1 ∧ ((readlines bs).headD []).length = 1) ↔
      bs.length = 1 := by
  constructor
  · rintro ⟨h1, h2⟩
    rcases List.length_eq_one.mp h1 with ⟨l, hl⟩
    have := flatten_readlines bs
    rw [hl] at this h2
    simp only [List.flatten_cons, List.flatten_nil, List.append_nil] at this
    simp only [List.headD_cons] at h2
    rw [← this, h2]
  · intro h
    rcases List.length_eq_one.mp h with ⟨b, hb⟩
    subst hb
    rw [readlines_singleton]
    exact ⟨rfl, rfl⟩

/-! ### The per-line DOS test and the byte-level strip -/

theorem is_dos_line_iff (l : List Nat) :
    is_dos_line l = true ↔ ∃ p, l = p ++ [CARRIAGE_RETURN, NEWLINE] := by
  constructor
  · intro h
    rcases l.eq_nil_or_concat with rfl | ⟨l1, a, rfl⟩
    · simp [is_dos_line] at h
    rcases l1.eq_nil_or_concat with rfl | ⟨l2, c, rfl⟩
    · simp [is_dos_line, List.concat_eq_append] at h
    · simp only [List.concat_eq_append] at h ⊢
      refine ⟨l2, ?_⟩
      have hlen : ((l2 ++ [c]) ++ [a]).length = l2.length + 2 := by simp
      simp only [is_dos_line, hlen, Bool.and_eq_true, decide_eq_true_eq,
        beq_iff_eq] at h
      obtain ⟨⟨-, ha⟩, hc⟩ := h
      have ha' : ((l2 ++ [c]) ++ [a]).getD (l2.length + 2 - 1) 0 = a := by
        rw [List.getD_append_right _ _ _ _ (by simp)]
        simp
      have hc' : ((l2 ++ [c]) ++ [a]).getD (l2.length + 2 - 2) 0 = c := by
        rw [List.getD_append _ _ _ _ (by simp)]
        rw [List.getD_append_right _ _ _ _ (by simp)]
        simp
      rw [ha'] at ha
      rw [hc'] at hc
      rw [ha, hc]
      simp
  · rintro ⟨p, rfl⟩
    have hlen : (p ++ [CARRIAGE_RETURN, NEWLINE]).length = p.length + 2 := by simp
    simp only [is_dos_line, hlen, Bool.and_eq_true, decide_eq_true_eq, beq_iff_eq]
    refine ⟨⟨by omega, ?_⟩, ?_⟩
    · rw [List.getD_append_right _ _ _ _ (by omega)]
      have : p.length + 2 - 1 - p.length = 1 := by omega
      rw [this]
      rfl
    · rw [List.getD_append_right _ _ _ _ (by omega)]
      have : p.length + 2 - 2 - p.length = 0 := by omega
      rw [this]
      rfl

theorem dropWhile_head_false {f : Nat → Bool} :
    ∀ (l : List Nat) (x : Nat) (xs : List Nat), l.dropWhile f = x :: xs → f x = false
  | a :: l', x, xs, h => by
    rw [List.dropWhile_cons] at h
    split at h
    · exact dropWhile_head_false l' x xs h
    · injection h with h1 h2
      subst h1
      rename_i hfa
      exact Bool.not_eq_true _ ▸ hfa

theorem rstripNewlines_getLast_ne (bs q : List Nat) (c : Nat)
    (h : rstripNewlines bs = q ++ [c]) : c ≠ NEWLINE := by
  unfold rstripNewlines at h
  have h' : bs.reverse.dropWhile (fun b => b == NEWLINE) = (q ++ [c]).reverse := by
    rw [← h, List.reverse_reverse]
  rw [List.reverse_append] at h'
  simp only [List.reverse_singleton, List.singleton_append] at h'
  have := dropWhile_head_false bs.reverse c q.reverse h'
  simpa using this

/-! ### Branch lemmas for `check_file` -/

theorem check_file_empty (f : String) (w : Bool) : check_file f [] w = none := rfl

theorem check_file_one_byte (f : String) (b : Nat) (w : Bool) :
    check_file f [b] w = some (bare_message f) := by
  simp [check_file, readlines_singleton]

theorem check_file_trailing (f : String) (bs p : List Nat) (w : Bool)
    (h1 : utf8Valid bs = true) (h2 : bs = p ++ [NEWLINE, NEWLINE]) :
    check_file f bs w = some (trailing_message f bs) := by
  have hlen : bs.length ≠ 1 := by rw [h2]; simp
  have hne : (readlines bs).length ≠ 0 := by
    rw [Ne, List.length_eq_zero, readlines_eq_nil_iff, h2]
    simp
  have hbare : ¬((readlines bs).length = 1 ∧ ((readlines bs).headD []).length = 1) := by
    rw [bare_guard_iff]
    exact hlen
  have hlast : (readlines bs).getLastD [] = [NEWLINE] := by
    rw [List.getLastD_eq_getLast?, h2, readlines_getLast?_of_double]
    rfl
  simp only [check_file]
  rw [if_neg hne, if_neg hbare, if_pos (by rw [hlast]; exact ⟨rfl, rfl⟩),
      flatten_readlines]
  unfold decode_utf8
  rw [if_pos h1]

theorem check_file_trailing_invalid (f : String) (bs p : List Nat) (w : Bool)
    (h1 : utf8Valid bs = false) (h2 : bs = p ++ [NEWLINE, NEWLINE]) :
    check_file f bs w =
      some (decode_failure_message f (unicode_decode_error_message bs)) := by
  have hlen : bs.length ≠ 1 := by rw [h2]; simp
  have hne : (readlines bs).length ≠ 0 := by
    rw [Ne, List.length_eq_zero, readlines_eq_nil_iff, h2]
    simp
  have hbare : ¬((readlines bs).length = 1 ∧ ((readlines bs).headD []).length = 1) := by
    rw [bare_guard_iff]
    exact hlen
  have hlast : (readlines bs).getLastD [] = [NEWLINE] := by
    rw [List.getLastD_eq_getLast?, h2, readlines_getLast?_of_double]
    rfl
  simp only [check_file]
  rw [if_neg hne, if_neg hbare, if_pos (by rw [hlast]; exact ⟨rfl, rfl⟩),
      flatten_readlines]
  unfold decode_utf8
  rw [if_neg (by simp [h1])]

theorem check_file_past_trailing (f : String) (bs : List Nat) (w : Bool)
    (hne : bs ≠ []) (hlen : bs.length ≠ 1)
    (hlast : (readlines bs).getLastD [] ≠ [NEWLINE]) :
    check_file f bs w =
      if w then none
      else if (readlines bs).any is_dos_line then
        match decode_utf8 bs with
        | none => some (decode_failure_message f (unicode_decode_error_message bs))
        | some o =>
          match decode_utf8 (((readlines bs).map fix_line).flatten) with
          | none =>
              some (decode_failure_message f
                (unicode_decode_error_message (((readlines bs).map fix_line).flatten)))
          | some r => some (dos_message f o r)
      else none := by
  have hne' : (readlines bs).length ≠ 0 := by
    rw [Ne, List.length_eq_zero, readlines_eq_nil_iff]
    exact hne
  have hbare : ¬((readlines bs).length = 1 ∧ ((readlines bs).headD []).length = 1) := by
    rw [bare_guard_iff]
    exact hlen
  have htr : ¬(((readlines bs).getLastD []).length = 1 ∧
      ((readlines bs).getLastD []).headD 0 = NEWLINE) := fun hcond =>
    hlast ((line_guard_iff _).mp hcond)
  simp only [check_file]
  rw [if_neg hne', if_neg hbare, if_neg htr, flatten_readlines]

/-! ### The DOS fix as a global byte transformation -/

theorem ne_nil_of_mem_readlines :
    ∀ (bs : List Nat) (l : List Nat), l ∈ readlines bs → l ≠ [] := by
  intro bs
  induction bs with
  | nil => simp [readlines]
  | cons b rest ih =>
    intro l hl
    by_cases hb : b = NEWLINE
    · subst hb
      have h10 : readlines (NEWLINE :: rest) = [NEWLINE] :: readlines rest := by
        simp [readlines]
      rw [h10] at hl
      rcases List.mem_cons.mp hl with rfl | hmem
      · simp
      · exact ih l hmem
    · cases hR : readlines rest with
      | nil =>
        rw [readlines, if_neg hb, hR] at hl
        rcases List.mem_cons.mp hl with rfl | hmem
        · simp
        · simp at hmem
      | cons l0 ls =>
        rw [readlines, if_neg hb, hR] at hl
        rcases List.mem_cons.mp hl with rfl | hmem
        · simp
        · exact ih l (by rw [hR]; exact List.mem_cons_of_mem _ hmem)

theorem removeCRLF_cons_of_ne (b : Nat) (rest : List Nat) (h : b ≠ CARRIAGE_RETURN) :
    removeCRLF (b :: rest) = b :: removeCRLF rest := by
  cases rest with
  | nil => rfl
  | cons c r => simp [removeCRLF, h]

theorem fix_line_singleton (b : Nat) : fix_line [b] = [b] := by
  simp [fix_line, is_dos_line]

theorem fix_line_cons (b : Nat) (l : List Nat) (hne : l ≠ [])
    (hno : ¬(b = CARRIAGE_RETURN ∧ l = [NEWLINE])) :
    fix_line (b :: l) = b :: fix_line l := by
  by_cases hd : is_dos_line l = true
  · rcases (is_dos_line_iff l).mp hd with ⟨p, rfl⟩
    have hd2 : is_dos_line (b :: (p ++ [CARRIAGE_RETURN, NEWLINE])) = true := by
      rw [is_dos_line_iff]
      exact ⟨b :: p, by simp⟩
    rw [fix_line, if_pos hd2, fix_line, if_pos hd]
    have hl1 : (b :: (p ++ [CARRIAGE_RETURN, NEWLINE])).length - 2 = p.length + 1 := by
      simp
    have hl2 : (p ++ [CARRIAGE_RETURN, NEWLINE]).length - 2 = p.length := by
      simp
    rw [hl1, hl2, List.take_succ_cons]
    have ht : (p ++ [CARRIAGE_RETURN, NEWLINE]).take p.length = p := by
      simp
    rw [ht]
    simp
  · have hd2 : ¬(is_dos_line (b :: l) = true) := by
      intro hcon
      rcases (is_dos_line_iff _).mp hcon with ⟨p, hp⟩
      cases p with
      | nil =>
        injection hp with hb hl
        exact hno ⟨hb, hl⟩
      | cons x p' =>
        injection hp with hb hl
        exact hd ((is_dos_line_iff l).mpr ⟨p', hl⟩)
    rw [fix_line, if_neg hd2, fix_line, if_neg hd]

theorem flatten_map_fix_line (bs : List Nat) :
    ((readlines bs).map fix_line).flatten = removeCRLF bs := by
  induction bs using removeCRLF.induct with
  | case1 => rfl
  | case2 b =>
    rw [readlines_singleton]
    simp only [List.map_cons, List.map_nil, List.flatten_cons, List.flatten_nil,
      fix_line_singleton, List.append_nil]
    rfl
  | case3 b c rest hbc ih =>
    obtain ⟨hb, hc⟩ := hbc
    subst hb
    subst hc
    have h10 : readlines (NEWLINE :: rest) = [NEWLINE] :: readlines rest := by
      simp [readlines]
    have h13 : readlines (CARRIAGE_RETURN :: NEWLINE :: rest) =
        [CARRIAGE_RETURN, NEWLINE] :: readlines rest := by
      rw [readlines]
      rw [if_neg (by decide), h10]
    rw [h13]
    simp only [List.map_cons, List.flatten_cons]
    have hfx : fix_line [CARRIAGE_RETURN, NEWLINE] = [NEWLINE] := by decide
    rw [hfx, ih, removeCRLF]
    rw [if_pos ⟨rfl, rfl⟩]
    rfl
  | case4 b c rest hbc ih =>
    have hrw : removeCRLF (b :: c :: rest) = b :: removeCRLF (c :: rest) := by
      rw [removeCRLF, if_neg hbc]
    rw [hrw, ← ih]
    by_cases hb : b = NEWLINE
    · subst hb
      have h10 : readlines (NEWLINE :: c :: rest) = [NEWLINE] :: readlines (c :: rest) := by
        simp [readlines]
      rw [h10]
      simp only [List.map_cons, List.flatten_cons, fix_line_singleton]
      simp
    · cases hR : readlines (c :: rest) with
      | nil => exact absurd hR (readlines_ne_nil c rest)
      | cons l ls =>
        have hbr : readlines (b :: c :: rest) = (b :: l) :: ls := by
          rw [readlines, if_neg hb, hR]
        have hlne : l ≠ [] :=
          ne_nil_of_mem_readlines (c :: rest) l (by rw [hR]; exact List.mem_cons_self _ _)
        have hhead : l.headD 0 = c := by
          have h1 := flatten_readlines (c :: rest)
          rw [hR] at h1
          cases l with
          | nil => exact absurd rfl hlne
          | cons x xs =>
            have h2 : x = c := by
              have h3 := congrArg (fun t => t.headD 0) h1
              simpa using h3
            simp [h2]
        have hno : ¬(b = CARRIAGE_RETURN ∧ l = [NEWLINE]) := by
          rintro ⟨hb13, hl10⟩
          apply hbc
          constructor
          · exact hb13
          · rw [hl10] at hhead
            simpa using hhead.symm
        rw [hbr]
        simp only [List.map_cons, List.flatten_cons]
        rw [fix_line_cons b l hlne hno]
        simp

theorem utf8ValidFrom_removeCRLF_bounded :
    ∀ (n k lo hi : Nat) (bs : List Nat), bs.length ≤ n → (k = 0 ∨ 128 ≤ lo) →
      utf8ValidFrom k lo hi bs = true → utf8ValidFrom k lo hi (removeCRLF bs) = true := by
  intro n
  induction n with
  | zero =>
    intro k lo hi bs hlen hst h
    have hnil : bs = [] := List.eq_nil_of_length_eq_zero (Nat.le_zero.mp hlen)
    subst hnil
    exact h
  | succ n ih =>
    intro k lo hi bs hlen hst h
    cases bs with
    | nil => exact h
    | cons b rest =>
      simp only [List.length_cons, Nat.succ_le_succ_iff] at hlen
      cases k with
      | zero =>
        by_cases hb : b ≤ 127
        · cases rest with
          | nil =>
            rw [show removeCRLF [b] = [b] from rfl]
            exact h
          | cons c rest1 =>
            rw [utf8ValidFrom, if_pos hb] at h
            by_cases hcr : b = CARRIAGE_RETURN ∧ c = NEWLINE
            · rw [removeCRLF, if_pos hcr]
              obtain ⟨hb13, hc10⟩ := hcr
              subst hc10
              rw [utf8ValidFrom, if_pos (by decide : NEWLINE ≤ 127)] at h
              rw [utf8ValidFrom, if_pos (by decide : NEWLINE ≤ 127)]
              have hlen1 : rest1.length ≤ n := by
                simp only [List.length_cons] at hlen
                omega
              exact ih 0 0 0 rest1 hlen1 (Or.inl rfl) h
            · rw [removeCRLF, if_neg hcr, utf8ValidFrom, if_pos hb]
              exact ih 0 0 0 (c :: rest1) hlen (Or.inl rfl) h
        · have hbne : b ≠ CARRIAGE_RETURN := by
            show b ≠ 13
            omega
          rw [removeCRLF_cons_of_ne _ _ hbne]
          rw [utf8ValidFrom, if_neg hb] at h
          rw [utf8ValidFrom, if_neg hb]
          by_cases hA : 194 ≤ b ∧ b ≤ 223
          · rw [if_pos hA] at h
            rw [if_pos hA]
            exact ih 1 128 191 rest hlen (Or.inr (by omega)) h
          · rw [if_neg hA] at h
            rw [if_neg hA]
            by_cases hB : b = 224
            · rw [if_pos hB] at h
              rw [if_pos hB]
              exact ih 2 160 191 rest hlen (Or.inr (by omega)) h
            · rw [if_neg hB] at h
              rw [if_neg hB]
              by_cases hC : (225 ≤ b ∧ b ≤ 236) ∨ b = 238 ∨ b = 239
              · rw [if_pos hC] at h
                rw [if_pos hC]
                exact ih 2 128 191 rest hlen (Or.inr (by omega)) h
              · rw [if_neg hC] at h
                rw [if_neg hC]
                by_cases hD : b = 237
                · rw [if_pos hD] at h
                  rw [if_pos hD]
                  exact ih 2 128 159 rest hlen (Or.inr (by omega)) h
                · rw [if_neg hD] at h
                  rw [if_neg hD]
                  by_cases hE : b = 240
                  · rw [if_pos hE] at h
                    rw [if_pos hE]
                    exact ih 3 144 191 rest hlen (Or.inr (by omega)) h
                  · rw [if_neg hE] at h
                    rw [if_neg hE]
                    by_cases hF : 241 ≤ b ∧ b ≤ 243
                    · rw [if_pos hF] at h
                      rw [if_pos hF]
                      exact ih 3 128 191 rest hlen (Or.inr (by omega)) h
                    · rw [if_neg hF] at h
                      rw [if_neg hF]
                      by_cases hG : b = 244
                      · rw [if_pos hG] at h
                        rw [if_pos hG]
                        exact ih 3 128 143 rest hlen (Or.inr (by omega)) h
                      · rw [if_neg hG] at h
                        exact absurd h (by simp)
      | succ k1 =>
        have hlo : 128 ≤ lo := by
          rcases hst with hst | hst
          · exact absurd hst (by omega)
          · exact hst
        rw [utf8ValidFrom] at h
        by_cases hr : lo ≤ b ∧ b ≤ hi
        · rw [if_pos hr] at h
          have hbne : b ≠ CARRIAGE_RETURN := by
            show b ≠ 13
            omega
          rw [removeCRLF_cons_of_ne _ _ hbne, utf8ValidFrom, if_pos hr]
          exact ih k1 128 191 rest hlen (by
            cases k1 with
            | zero => exact Or.inl rfl
            | succ k2 => exact Or.inr (by omega)) h
        · rw [if_neg hr] at h
          exact absurd h (by simp)

theorem utf8Valid_removeCRLF (bs : List Nat) (h : utf8Valid bs = true) :
    utf8Valid (removeCRLF bs) = true :=
  utf8ValidFrom_removeCRLF_bounded bs.length 0 0 0 bs (Nat.le_refl _) (Or.inl rfl) h

/-! ### Recovering the line list from its flattening -/

theorem dropLast_cons_of_ne_nil {α : Type} (b : α) (l : List α) (h : l ≠ []) :
    (b :: l).dropLast = b :: l.dropLast := by
  cases l with
  | nil => exact absurd rfl h
  | cons x xs => rfl

theorem no_inner_newline_of_mem_readlines :
    ∀ (bs : List Nat) (l : List Nat), l ∈ readlines bs → NEWLINE ∉ l.dropLast := by
  intro bs
  induction bs with
  | nil => simp [readlines]
  | cons b rest ih =>
    intro l hl
    by_cases hb : b = NEWLINE
    · subst hb
      have h10 : readlines (NEWLINE :: rest) = [NEWLINE] :: readlines rest := by
        simp [readlines]
      rw [h10] at hl
      rcases List.mem_cons.mp hl with rfl | hmem
      · simp
      · exact ih l hmem
    · cases hR : readlines rest with
      | nil =>
        rw [readlines, if_neg hb, hR] at hl
        rcases List.mem_cons.mp hl with rfl | hmem
        · simp
        · simp at hmem
      | cons l0 ls =>
        rw [readlines, if_neg hb, hR] at hl
        rcases List.mem_cons.mp hl with rfl | hmem
        · have hl0 : l0 ≠ [] :=
            ne_nil_of_mem_readlines rest l0 (by rw [hR]; exact List.mem_cons_self _ _)
          rw [dropLast_cons_of_ne_nil b l0 hl0]
          intro hcon
          rcases List.mem_cons.mp hcon with hcon1 | hcon2
          · exact hb hcon1.symm
          · exact ih l0 (by rw [hR]; exact List.mem_cons_self _ _) hcon2
        · exact ih l (by rw [hR]; exact List.mem_cons_of_mem _ hmem)

theorem getLast?_newline_of_mem_dropLast_readlines :
    ∀ (bs : List Nat) (l : List Nat), l ∈ (readlines bs).dropLast →
      l.getLast? = some NEWLINE := by
  intro bs
  induction bs with
  | nil => simp [readlines]
  | cons b rest ih =>
    intro l hl
    by_cases hb : b = NEWLINE
    · subst hb
      have h10 : readlines (NEWLINE :: rest) = [NEWLINE] :: readlines rest := by
        simp [readlines]
      rw [h10] at hl
      cases hR : readlines rest with
      | nil =>
        rw [hR] at hl
        simp at hl
      | cons l0 ls =>
        rw [hR] at hl
        rw [dropLast_cons_of_ne_nil _ _ (by simp)] at hl
        rcases List.mem_cons.mp hl with rfl | hmem
        · rfl
        · exact ih l (by rw [hR]; exact hmem)
    · cases hR : readlines rest with
      | nil =>
        rw [readlines, if_neg hb, hR] at hl
        simp at hl
      | cons l0 ls =>
        rw [readlines, if_neg hb, hR] at hl
        cases hls : ls with
        | nil =>
          rw [hls] at hl
          simp at hl
        | cons l2 ls2 =>
          rw [hls] at hl
          rw [dropLast_cons_of_ne_nil _ _ (by simp)] at hl
          rcases List.mem_cons.mp hl with rfl | hmem
          · have hl0 : l0 ≠ [] :=
              ne_nil_of_mem_readlines rest l0 (by rw [hR]; exact List.mem_cons_self _ _)
            have h1 : l0 ∈ (readlines rest).dropLast := by
              rw [hR, hls, dropLast_cons_of_ne_nil _ _ (by simp)]
              exact List.mem_cons_self _ _
            have h2 := ih l0 h1
            cases l0 with
            | nil => exact absurd rfl hl0
            | cons x xs =>
              rw [List.getLast?_cons_cons]
              exact h2
          · have h1 : l ∈ (readlines rest).dropLast := by
              rw [hR, hls, dropLast_cons_of_ne_nil _ _ (by simp)]
              exact List.mem_cons_of_mem _ hmem
            exact ih l h1

theorem readlines_chunk (l : List Nat) :
    ∀ (rest : List Nat), l ≠ [] → NEWLINE ∉ l.dropLast → l.getLast? = some NEWLINE →
      readlines (l ++ rest) = l :: readlines rest := by
  induction l with
  | nil => intro rest h1 _ _; exact absurd rfl h1
  | cons c cs ih =>
    intro rest h1 h2 h3
    cases cs with
    | nil =>
      have hc : c = NEWLINE := by simpa using h3
      subst hc
      simp [readlines]
    | cons c2 cs2 =>
      have hc : c ≠ NEWLINE := by
        intro hcon
        apply h2
        rw [dropLast_cons_of_ne_nil c (c2 :: cs2) (by simp)]
        rw [hcon]
        exact List.mem_cons_self _ _
      have h2' : NEWLINE ∉ (c2 :: cs2).dropLast := by
        intro hcon
        apply h2
        rw [dropLast_cons_of_ne_nil c (c2 :: cs2) (by simp)]
        exact List.mem_cons_of_mem _ hcon
      have h3' : (c2 :: cs2).getLast? = some NEWLINE := by
        rw [← List.getLast?_cons_cons (a := c)]
        exact h3
      have hih := ih rest (by simp) h2' h3'
      rw [List.cons_append, readlines, if_neg hc, hih]

theorem readlines_of_no_inner_newline (l : List Nat)
    (h1 : l ≠ []) (h2 : NEWLINE ∉ l.dropLast) : readlines l = [l] := by
  induction l with
  | nil => exact absurd rfl h1
  | cons c cs ih =>
    cases cs with
    | nil => exact readlines_singleton c
    | cons c2 cs2 =>
      have hc : c ≠ NEWLINE := by
        intro hcon
        apply h2
        rw [dropLast_cons_of_ne_nil c (c2 :: cs2) (by simp)]
        rw [hcon]
        exact List.mem_cons_self _ _
      have h2' : NEWLINE ∉ (c2 :: cs2).dropLast := by
        intro hcon
        apply h2
        rw [dropLast_cons_of_ne_nil c (c2 :: cs2) (by simp)]
        exact List.mem_cons_of_mem _ hcon
      have hih := ih (by simp) h2'
      rw [readlines, if_neg hc, hih]

theorem readlines_flatten_of :
    ∀ (L : List (List Nat)),
      (∀ l ∈ L, l ≠ []) → (∀ l ∈ L, NEWLINE ∉ l.dropLast) →
      (∀ l ∈ L.dropLast, l.getLast? = some NEWLINE) →
      readlines L.flatten = L := by
  intro L
  induction L with
  | nil => intro _ _ _; rfl
  | cons l L2 ih =>
    intro h1 h2 h3
    cases L2 with
    | nil =>
      simp only [List.flatten_cons, List.flatten_nil, List.append_nil]
      exact readlines_of_no_inner_newline l (h1 l (by simp)) (h2 l (by simp))
    | cons l2 L3 =>
      simp only [List.flatten_cons]
      rw [← List.flatten_cons]
      rw [readlines_chunk l (l2 :: L3).flatten (h1 l (by simp)) (h2 l (by simp))
        (h3 l (by rw [dropLast_cons_of_ne_nil _ _ (by simp)]; exact List.mem_cons_self _ _))]
      rw [ih (fun x hx => h1 x (List.mem_cons_of_mem _ hx))
        (fun x hx => h2 x (List.mem_cons_of_mem _ hx))
        (fun x hx => h3 x (by
          rw [dropLast_cons_of_ne_nil _ _ (by simp)]
          exact List.mem_cons_of_mem _ hx))]

/-! ### Behaviour of `fix_line` on the line invariants -/

theorem fix_line_ne_nil (l : List Nat) (h : l ≠ []) : fix_line l ≠ [] := by
  unfold fix_line
  split
  · simp
  · exact h

theorem fix_line_take_form (p : List Nat) :
    fix_line (p ++ [CARRIAGE_RETURN, NEWLINE]) = p ++ [NEWLINE] := by
  have hd : is_dos_line (p ++ [CARRIAGE_RETURN, NEWLINE]) = true :=
    (is_dos_line_iff _).mpr ⟨p, rfl⟩
  rw [fix_line, if_pos hd]
  have hlen : (p ++ [CARRIAGE_RETURN, NEWLINE]).length - 2 = p.length := by simp
  have htake : (p ++ [CARRIAGE_RETURN, NEWLINE]).take p.length = p := by simp
  rw [hlen, htake]

theorem fix_line_no_inner (l : List Nat) (h : NEWLINE ∉ l.dropLast) :
    NEWLINE ∉ (fix_line l).dropLast := by
  by_cases hd : is_dos_line l = true
  · rcases (is_dos_line_iff l).mp hd with ⟨p, rfl⟩
    rw [fix_line_take_form, List.dropLast_concat]
    intro hcon
    apply h
    have hdl : (p ++ [CARRIAGE_RETURN, NEWLINE]).dropLast = p ++ [CARRIAGE_RETURN] := by
      have hsplit : p ++ [CARRIAGE_RETURN, NEWLINE] =
          (p ++ [CARRIAGE_RETURN]) ++ [NEWLINE] := by simp
      rw [hsplit, List.dropLast_concat]
    rw [hdl]
    exact List.mem_append_left _ hcon
  · rw [fix_line, if_neg hd]
    exact h

theorem fix_line_getLast (l : List Nat) (h : l.getLast? = some NEWLINE) :
    (fix_line l).getLast? = some NEWLINE := by
  by_cases hd : is_dos_line l = true
  · rw [fix_line, if_pos hd, List.getLast?_concat]
  · rw [fix_line, if_neg hd]
    exact h

theorem fix_line_not_dos (l : List Nat)
    (hno : ¬∃ p, l = p ++ [CARRIAGE_RETURN, CARRIAGE_RETURN, NEWLINE]) :
    is_dos_line (fix_line l) = false := by
  by_cases hd : is_dos_line l = true
  · rcases (is_dos_line_iff l).mp hd with ⟨p, rfl⟩
    rw [fix_line_take_form]
    cases h2 : is_dos_line (p ++ [NEWLINE]) with
    | false => rfl
    | true =>
      rcases (is_dos_line_iff _).mp h2 with ⟨q, hq⟩
      have hp : p = q ++ [CARRIAGE_RETURN] := by
        have h3 := congrArg List.dropLast hq
        rw [List.dropLast_concat] at h3
        have hsplit : q ++ [CARRIAGE_RETURN, NEWLINE] =
            (q ++ [CARRIAGE_RETURN]) ++ [NEWLINE] := by simp
        rw [hsplit, List.dropLast_concat] at h3
        exact h3
      exact absurd ⟨q, by rw [hp]; simp⟩ hno
  · rw [fix_line, if_neg hd]
    exact Bool.eq_false_iff.mpr hd

theorem fix_line_eq_singleton (l : List Nat) (hd : is_dos_line l = true)
    (h : fix_line l = [NEWLINE]) : l = [CARRIAGE_RETURN, NEWLINE] := by
  rcases (is_dos_line_iff l).mp hd with ⟨p, rfl⟩
  rw [fix_line_take_form] at h
  have hp : p = [] := by
    have h3 := congrArg List.dropLast h
    rw [List.dropLast_concat] at h3
    simpa using h3
  rw [hp]
  rfl

theorem getLast?_map_lines (g : List Nat → List Nat) (L : List (List Nat)) :
    (L.map g).getLast? = L.getLast?.map g := by
  rcases L.eq_nil_or_concat with rfl | ⟨M, a, rfl⟩
  · rfl
  · simp only [List.concat_eq_append, List.map_append, List.map_cons, List.map_nil,
      List.getLast?_concat]
    rfl

theorem getLast?_eq_of_getLastD (L : List (List Nat)) (h : L.getLastD [] = [NEWLINE]) :
    L.getLast? = some [NEWLINE] := by
  rw [List.getLastD_eq_getLast?] at h
  cases hL : L.getLast? with
  | none =>
    rw [hL] at h
    simp at h
  | some l =>
    rw [hL] at h
    simp only [Option.getD_some] at h
    rw [h]

theorem dropLast_map (g : List Nat → List Nat) :
    ∀ (L : List (List Nat)), (L.map g).dropLast = L.dropLast.map g := by
  intro L
  induction L with
  | nil => rfl
  | cons l L2 ih =>
    cases L2 with
    | nil => rfl
    | cons l2 L3 =>
      have h1 : (List.map g (l :: l2 :: L3)).dropLast
          = g l :: (List.map g (l2 :: L3)).dropLast := by
        rw [List.map_cons]
        exact dropLast_cons_of_ne_nil _ _ (by simp)
      rw [h1, ih, dropLast_cons_of_ne_nil l (l2 :: L3) (by simp), List.map_cons]

/-! ### The DOS branch of `check_file` -/

theorem check_file_dos (f : String) (bs : List Nat)
    (h1 : utf8Valid bs = true)
    (h2 : (readlines bs).any is_dos_line = true)
    (h3 : bs.length ≠ 1)
    (h4 : (readlines bs).getLastD [] ≠ [NEWLINE]) :
    check_file f bs false = some (dos_message f bs (removeCRLF bs)) := by
  have hne : bs ≠ [] := by
    intro hcon
    subst hcon
    simp [readlines] at h2
  rw [check_file_past_trailing f bs false hne h3 h4]
  rw [if_neg (by simp : ¬(false = true))]
  rw [if_pos h2, flatten_map_fix_line]
  unfold decode_utf8
  rw [if_pos h1, if_pos (utf8Valid_removeCRLF bs h1)]

theorem check_file_dos_invalid (f : String) (bs : List Nat)
    (h1 : utf8Valid bs = false)
    (h2 : (readlines bs).any is_dos_line = true)
    (h3 : bs.length ≠ 1)
    (h4 : (readlines bs).getLastD [] ≠ [NEWLINE]) :
    check_file f bs false =
      some (decode_failure_message f (unicode_decode_error_message bs)) := by
  have hne : bs ≠ [] := by
    intro hcon
    subst hcon
    simp [readlines] at h2
  rw [check_file_past_trailing f bs false hne h3 h4]
  rw [if_neg (by simp : ¬(false = true))]
  rw [if_pos h2]
  unfold decode_utf8
  rw [if_neg (by simp [h1])]

theorem check_file_no_finding (f : String) (bs : List Nat) (w : Bool)
    (h3 : bs.length ≠ 1)
    (h4 : (readlines bs).getLastD [] ≠ [NEWLINE])
    (h5 : w = true ∨ (readlines bs).any is_dos_line = false) :
    check_file f bs w = none := by
  by_cases hne : bs = []
  · subst hne
    exact check_file_empty f w
  · rw [check_file_past_trailing f bs w hne h3 h4]
    cases w with
    | true => rw [if_pos rfl]
    | false =>
      rw [if_neg (by simp : ¬(false = true))]
      rcases h5 with h5 | h5
      · exact absurd h5 (by simp)
      · rw [if_neg (by simp [h5])]

theorem trailing_name_inv (f : String) (bs : List Nat) (w : Bool) (m : LintMessage)
    (h : check_file f bs w = some m) (hn : m.name = "Trailing newline") :
    bs.length ≠ 1 ∧ (readlines bs).getLastD [] = [NEWLINE] := by
  by_cases hlen : bs.length = 1
  · rcases List.length_eq_one.mp hlen with ⟨b, rfl⟩
    rw [check_file_one_byte] at h
    injection h with h1
    rw [← h1] at hn
    have hbn : (bare_message f).name = "testestTrailing newline" := rfl
    rw [hbn] at hn
    exact absurd hn (by decide)
  · refine ⟨hlen, ?_⟩
    by_cases hlast : (readlines bs).getLastD [] = [NEWLINE]
    · exact hlast
    · exfalso
      by_cases hne : bs = []
      · subst hne
        rw [check_file_empty] at h
        exact absurd h (by simp)
      · rw [check_file_past_trailing f bs w hne hlen hlast] at h
        cases w with
        | true =>
          rw [if_pos rfl] at h
          exact absurd h (by simp)
        | false =>
          rw [if_neg (by simp : ¬(false = true))] at h
          by_cases hany : (readlines bs).any is_dos_line = true
          · rw [if_pos hany] at h
            cases hd1 : decode_utf8 bs with
            | none =>
              simp only [hd1] at h
              injection h with h1
              rw [← h1] at hn
              have hdn : ∀ s, (decode_failure_message f s).name = "Decoding failure" :=
                fun s => rfl
              rw [hdn] at hn
              exact absurd hn (by decide)
            | some o =>
              cases hd2 : decode_utf8 (((readlines bs).map fix_line).flatten) with
              | none =>
                simp only [hd1, hd2] at h
                injection h with h1
                rw [← h1] at hn
                have hdn : ∀ s, (decode_failure_message f s).name = "Decoding failure" :=
                  fun s => rfl
                rw [hdn] at hn
                exact absurd hn (by decide)
              | some r =>
                simp only [hd1, hd2] at h
                injection h with h1
                rw [← h1] at hn
                have hdosn : (dos_message f o r).name = "DOS newline" := rfl
                rw [hdosn] at hn
                exact absurd hn (by decide)
          · rw [if_neg hany] at h
            exact absurd h (by simp)

/-! ### The scanner agrees with the validator -/

theorem utf8Scan_none_iff_bounded :
    ∀ (n sp p k lo hi : Nat) (bs : List Nat), bs.length ≤ n →
      ((utf8Scan sp p k lo hi bs = none) ↔ utf8ValidFrom k lo hi bs = true) := by
  intro n
  induction n with
  | zero =>
    intro sp p k lo hi bs hlen
    have hnil : bs = [] := List.eq_nil_of_length_eq_zero (Nat.le_zero.mp hlen)
    subst hnil
    cases k with
    | zero => simp [utf8Scan, utf8ValidFrom]
    | succ k1 => simp [utf8Scan, utf8ValidFrom]
  | succ n ih =>
    intro sp p k lo hi bs hlen
    cases bs with
    | nil =>
      cases k with
      | zero => simp [utf8Scan, utf8ValidFrom]
      | succ k1 => simp [utf8Scan, utf8ValidFrom]
    | cons b rest =>
      simp only [List.length_cons, Nat.succ_le_succ_iff] at hlen
      cases k with
      | zero =>
        rw [utf8Scan, utf8ValidFrom]
        by_cases hb : b ≤ 127
        · rw [if_pos hb, if_pos hb]
          exact ih (p + 1) (p + 1) 0 0 0 rest hlen
        · rw [if_neg hb, if_neg hb]
          by_cases hA : 194 ≤ b ∧ b ≤ 223
          · rw [if_pos hA, if_pos hA]
            exact ih p (p + 1) 1 128 191 rest hlen
          · rw [if_neg hA, if_neg hA]
            by_cases hB : b = 224
            · rw [if_pos hB, if_pos hB]
              exact ih p (p + 1) 2 160 191 rest hlen
            · rw [if_neg hB, if_neg hB]
              by_cases hC : (225 ≤ b ∧ b ≤ 236) ∨ b = 238 ∨ b = 239
              · rw [if_pos hC, if_pos hC]
                exact ih p (p + 1) 2 128 191 rest hlen
              · rw [if_neg hC, if_neg hC]
                by_cases hD : b = 237
                · rw [if_pos hD, if_pos hD]
                  exact ih p (p + 1) 2 128 159 rest hlen
                · rw [if_neg hD, if_neg hD]
                  by_cases hE : b = 240
                  · rw [if_pos hE, if_pos hE]
                    exact ih p (p + 1) 3 144 191 rest hlen
                  · rw [if_neg hE, if_neg hE]
                    by_cases hF : 241 ≤ b ∧ b ≤ 243
                    · rw [if_pos hF, if_pos hF]
                      exact ih p (p + 1) 3 128 191 rest hlen
                    · rw [if_neg hF, if_neg hF]
                      by_cases hG : b = 244
                      · rw [if_pos hG, if_pos hG]
                        exact ih p (p + 1) 3 128 143 rest hlen
                      · rw [if_neg hG, if_neg hG]
                        simp
      | succ k1 =>
        rw [utf8Scan, utf8ValidFrom]
        by_cases hr : lo ≤ b ∧ b ≤ hi
        · rw [if_pos hr, if_pos hr]
          exact ih sp (p + 1) k1 128 191 rest hlen
        · rw [if_neg hr, if_neg hr]
          simp

theorem utf8Scan_some_of_invalid (bs : List Nat) (hv : utf8Valid bs = false) :
    ∃ e, utf8Scan 0 0 0 0 0 bs = some e := by
  cases hs : utf8Scan 0 0 0 0 0 bs with
  | some e => exact ⟨e, rfl⟩
  | none =>
    have h2 := (utf8Scan_none_iff_bounded bs.length 0 0 0 0 0 bs (Nat.le_refl _)).mp hs
    unfold utf8Valid at hv
    rw [hv] at h2
    exact absurd h2 (by simp)

/-! ### The claims -/

/-- C1, counterexample: the claim says a one-byte file whose byte is not
`0x0A` produces no finding; the code flags every one-byte file, so the file
consisting of the single byte `0x41` is a counterexample. -/
theorem claim_C1_counterexample :
    (65 : Nat) ≠ 10 ∧ check_file "f" [65] false ≠ none := by decide

/-- C1 (amended): for every file of exactly one byte, whatever the byte's
value and whatever the platform flag, `check_file` produces the
bare-single-byte finding (the source's `testestTrailing newline` message,
which the spec calls "file-is-bare-newline"), with `original` and
`replacement` both absent; no later check is reached. -/
theorem claim_C1_one_byte_always_flagged (f : String) (b : Nat) (w : Bool) :
    check_file f [b] w = some (bare_message f) ∧
      (bare_message f).original = none ∧ (bare_message f).replacement = none :=
  ⟨check_file_one_byte f b w, rfl, rfl⟩

/-- C2, counterexample: on the two-byte file `"\x0a\x0a"` the
trailing-newline fix produces the replacement `"\x0a"`, and re-running
`check_file` on that replacement yields a finding (the bare-single-byte
finding), so the re-run is not finding-free as claimed. -/
theorem claim_C2_counterexample :
    utf8Valid [10, 10] = true ∧
      check_file "f" [10, 10] false = some (trailing_message "f" [10, 10]) ∧
      (trailing_message "f" [10, 10]).replacement = some [10] ∧
      check_file "f" [10] false ≠ none := by decide

/-- C2 (amended): for every valid-UTF-8 file ending in two or more `0x0A`
bytes, `check_file` returns the trailing-newline finding, and re-running
`check_file` on the UTF-8 encoding of the finding's replacement never
yields the trailing-newline finding again (the re-run may yield the
bare-single-byte finding, when the replacement is a single newline, or a
DOS-newline finding, when a line of the replacement ends in `0x0D 0x0A`). -/
theorem claim_C2_trailing_fix_no_refire (f : String) (bs p : List Nat) (w : Bool)
    (h1 : utf8Valid bs = true) (h2 : bs = p ++ [NEWLINE, NEWLINE]) :
    check_file f bs w = some (trailing_message f bs) ∧
      ∀ m : LintMessage, check_file f (rstripNewlines bs ++ [NEWLINE]) w = some m →
        m.name ≠ "Trailing newline" := by
  refine ⟨check_file_trailing f bs p w h1 h2, ?_⟩
  intro m hm hn
  obtain ⟨hlen, hlast⟩ := trailing_name_inv f _ w m hm hn
  have hlast' := getLast?_eq_of_getLastD _ hlast
  rcases readlines_getLast?_newline _ hlast' with hr | ⟨q, hq⟩
  · apply hlen
    rw [hr]
    rfl
  · have h3 := congrArg List.dropLast hq
    rw [List.dropLast_concat] at h3
    have hsplit : q ++ [NEWLINE, NEWLINE] = (q ++ [NEWLINE]) ++ [NEWLINE] := by simp
    rw [hsplit, List.dropLast_concat] at h3
    exact rstripNewlines_getLast_ne bs q NEWLINE h3 rfl

/-- C2, witness: the amended theorem applied to the concrete file
`"h\x0a\x0a"`. -/
theorem claim_C2_witness :
    check_file "f" [104, 10, 10] false = some (trailing_message "f" [104, 10, 10]) ∧
      ∀ m : LintMessage,
        check_file "f" (rstripNewlines [104, 10, 10] ++ [NEWLINE]) false = some m →
          m.name ≠ "Trailing newline" :=
  claim_C2_trailing_fix_no_refire "f" [104, 10, 10] [104] false (by decide) rfl

/-- C3: for every valid-UTF-8 file with at least one line ending in
`0x0D 0x0A` that is not empty, not one byte, and whose last line is not the
single byte `0x0A`, on a non-native-CRLF platform `check_file` returns the
DOS-newline finding whose `original` is the whole file content and whose
`replacement` replaces every line's trailing `0x0D 0x0A` by `0x0A` and
leaves every other byte (including lone carriage returns) unchanged — the
global transformation `removeCRLF`. -/
theorem claim_C3_dos_formula (f : String) (bs : List Nat)
    (h1 : utf8Valid bs = true)
    (h2 : ∃ l ∈ readlines bs, is_dos_line l = true)
    (_h3 : bs ≠ []) (h4 : bs.length ≠ 1)
    (h5 : (readlines bs).getLastD [] ≠ [NEWLINE]) :
    check_file f bs false = some (dos_message f bs (removeCRLF bs)) ∧
      (dos_message f bs (removeCRLF bs)).original = some bs ∧
      (dos_message f bs (removeCRLF bs)).replacement = some (removeCRLF bs) := by
  have hany : (readlines bs).any is_dos_line = true := List.any_eq_true.mpr h2
  exact ⟨check_file_dos f bs h1 hany h4 h5, rfl, rfl⟩

/-- C3, witness: scenario D of the spec, the file `"a\x0d\x0ab\x0d\x0a"`,
whose replacement is `"a\x0ab\x0a"`. -/
theorem claim_C3_witness :
    check_file "f" [97, 13, 10, 98, 13, 10] false =
        some (dos_message "f" [97, 13, 10, 98, 13, 10] [97, 10, 98, 10]) ∧
      (dos_message "f" [97, 13, 10, 98, 13, 10] [97, 10, 98, 10]).replacement =
        some [97, 10, 98, 10] := by
  have h := claim_C3_dos_formula "f" [97, 13, 10, 98, 13, 10] (by decide) (by decide)
    (by decide) (by decide) (by decide)
  exact ⟨h.1, h.2.2⟩

/-- C4, counterexample: the file `"\x0d\x0a"` produces the DOS-newline
finding with replacement `"\x0a"`, and re-running `check_file` on that
replacement yields a finding (the bare-single-byte finding), so the re-run
is not finding-free as claimed. -/
theorem claim_C4_counterexample :
    check_file "f" [13, 10] false = some (dos_message "f" [13, 10] [10]) ∧
      check_file "f" [10] false ≠ none := by decide

/-- C4 (amended): for every valid-UTF-8 file that produces the DOS-newline
finding on a non-native-CRLF platform, if additionally no line of the file
ends in `0x0D 0x0D 0x0A` and the last line is not exactly the two bytes
`0x0D 0x0A`, then re-running `check_file` on the UTF-8 encoding of the
finding's replacement yields no finding.  (Without the extra conditions the
re-run can yield another DOS-newline finding, a trailing-newline finding or
the bare-single-byte finding.) -/
theorem claim_C4_dos_fix_conditional (f : String) (bs : List Nat)
    (h1 : utf8Valid bs = true)
    (h2 : ∃ l ∈ readlines bs, is_dos_line l = true)
    (h4 : bs.length ≠ 1)
    (h5 : (readlines bs).getLastD [] ≠ [NEWLINE])
    (h6 : ∀ l ∈ readlines bs, ends_crcrlf l = false)
    (h7 : (readlines bs).getLastD [] ≠ [CARRIAGE_RETURN, NEWLINE]) :
    check_file f bs false = some (dos_message f bs (removeCRLF bs)) ∧
      check_file f (removeCRLF bs) false = none := by
  have hany : (readlines bs).any is_dos_line = true := List.any_eq_true.mpr h2
  have hlines' : readlines (removeCRLF bs) = (readlines bs).map fix_line := by
    rw [← flatten_map_fix_line]
    apply readlines_flatten_of
    · intro l hl
      rcases List.mem_map.mp hl with ⟨l0, hl0, rfl⟩
      exact fix_line_ne_nil l0 (ne_nil_of_mem_readlines bs l0 hl0)
    · intro l hl
      rcases List.mem_map.mp hl with ⟨l0, hl0, rfl⟩
      exact fix_line_no_inner l0 (no_inner_newline_of_mem_readlines bs l0 hl0)
    · intro l hl
      rw [dropLast_map] at hl
      rcases List.mem_map.mp hl with ⟨l0, hl0, rfl⟩
      exact fix_line_getLast l0 (getLast?_newline_of_mem_dropLast_readlines bs l0 hl0)
  have hLne : readlines bs ≠ [] := by
    intro hcon
    rw [hcon] at hany
    simp at hany
  obtain ⟨llast, hglast⟩ : ∃ l, (readlines bs).getLast? = some l := by
    cases hgl : (readlines bs).getLast? with
    | none => exact absurd (List.getLast?_eq_none_iff.mp hgl) hLne
    | some l => exact ⟨l, rfl⟩
  have hgetD : (readlines bs).getLastD [] = llast := by
    rw [List.getLastD_eq_getLast?, hglast]
    rfl
  refine ⟨check_file_dos f bs h1 hany h4 h5, ?_⟩
  apply check_file_no_finding
  · intro hcon
    rcases List.length_eq_one.mp hcon with ⟨x, hx⟩
    have h01 : (readlines bs).map fix_line = [[x]] := by
      rw [← hlines', hx, readlines_singleton]
    have hlen1 : (readlines bs).length = 1 := by
      have h02 := congrArg List.length h01
      simpa using h02
    rcases List.length_eq_one.mp hlen1 with ⟨l0, hl0⟩
    rw [hl0] at h01
    simp only [List.map_cons, List.map_nil] at h01
    injection h01 with hfix
    have hd0 : is_dos_line l0 = true := by
      rw [hl0] at hany
      simpa using hany
    rcases (is_dos_line_iff l0).mp hd0 with ⟨p, hp⟩
    subst hp
    rw [fix_line_take_form] at hfix
    have hpnil : p = [] := by
      cases p with
      | nil => rfl
      | cons y ys =>
        have h03 := congrArg List.length hfix
        simp at h03
    subst hpnil
    have hllast : llast = [CARRIAGE_RETURN, NEWLINE] := by
      have hg2 : (readlines bs).getLast? = some ([] ++ [CARRIAGE_RETURN, NEWLINE]) := by
        rw [hl0]
        rfl
      rw [hglast] at hg2
      have hg3 := Option.some.inj hg2
      simpa using hg3
    exact h7 (by rw [hgetD, hllast])
  · rw [hlines', List.getLastD_eq_getLast?, getLast?_map_lines, hglast]
    show fix_line llast ≠ [NEWLINE]
    intro hcon
    by_cases hd : is_dos_line llast = true
    · have hres := fix_line_eq_singleton llast hd hcon
      apply h7
      rw [hgetD, hres]
    · rw [fix_line, if_neg hd] at hcon
      rw [hgetD] at h5
      exact h5 hcon
  · refine Or.inr ?_
    rw [hlines', List.any_eq_false]
    intro l' hl'
    rcases List.mem_map.mp hl' with ⟨l0, hl0, rfl⟩
    rw [Bool.not_eq_true]
    apply fix_line_not_dos
    intro hex
    have htrue := (ends_crcrlf_iff l0).mpr hex
    rw [h6 l0 hl0] at htrue
    simp at htrue

/-- C4, witness: the amended theorem applied to the file `"a\x0d\x0a"`,
whose replacement `"a\x0a"` is clean on a second run. -/
theorem claim_C4_witness :
    check_file "f" [97, 13, 10] false =
        some (dos_message "f" [97, 13, 10] [97, 10]) ∧
      check_file "f" (removeCRLF [97, 13, 10]) false = none := by
  have h := claim_C4_dos_fix_conditional "f" [97, 13, 10] (by decide) (by decide)
    (by decide) (by decide) (by decide) (by decide)
  exact ⟨h.1, h.2⟩

/-- C5: for every valid-UTF-8 file ending in two or more `0x0A` bytes,
`check_file` returns the trailing-newline finding whose `original` is the
whole decoded content and whose `replacement` is the content with all
trailing `0x0A` bytes stripped and exactly one appended. -/
theorem claim_C5_trailing_formula (f : String) (bs p : List Nat) (w : Bool)
    (h1 : utf8Valid bs = true) (h2 : bs = p ++ [NEWLINE, NEWLINE]) :
    check_file f bs w = some (trailing_message f bs) ∧
      (trailing_message f bs).original = some bs ∧
      (trailing_message f bs).replacement = some (rstripNewlines bs ++ [NEWLINE]) :=
  ⟨check_file_trailing f bs p w h1 h2, rfl, rfl⟩

/-- C5, witness: scenario B of the spec, the file `"hello\x0a\x0a"`, whose
replacement is `"hello\x0a"`. -/
theorem claim_C5_witness :
    check_file "f" [104, 101, 108, 108, 111, 10, 10] false =
        some (trailing_message "f" [104, 101, 108, 108, 111, 10, 10]) ∧
      (trailing_message "f" [104, 101, 108, 108, 111, 10, 10]).original =
        some [104, 101, 108, 108, 111, 10, 10] ∧
      (trailing_message "f" [104, 101, 108, 108, 111, 10, 10]).replacement =
        some [104, 101, 108, 108, 111, 10] := by
  have h := claim_C5_trailing_formula "f" [104, 101, 108, 108, 111, 10, 10]
    [104, 101, 108, 108, 111] false (by decide) rfl
  refine ⟨h.1, h.2.1, ?_⟩
  rw [h.2.2]
  decide

/-- C6: `check_file` returns at most one finding, an empty file returns
none, and the checks short-circuit in the fixed order empty-file bypass,
bare-single-byte check, trailing-newline check, platform skip, DOS scan:
whenever the one-byte guard holds the bare finding is returned regardless
of the rest of the content; whenever the trailing guard holds the result
can only be the trailing-newline or decode-failure finding; and past those
guards a native-CRLF platform always gets no finding. -/
theorem claim_C6_priority (f : String) (bs : List Nat) (w : Bool) :
    (∀ m1 m2 : LintMessage,
        check_file f bs w = some m1 → check_file f bs w = some m2 → m1 = m2) ∧
      (bs = [] → check_file f bs w = none) ∧
      (bs.length = 1 → check_file f bs w = some (bare_message f)) ∧
      (bs.length ≠ 1 → (readlines bs).getLastD [] = [NEWLINE] →
        ∀ m : LintMessage, check_file f bs w = some m →
          m.name = "Trailing newline" ∨ m.name = "Decoding failure") ∧
      (bs.length ≠ 1 → (readlines bs).getLastD [] ≠ [NEWLINE] → w = true →
        check_file f bs w = none) := by
  refine ⟨?_, ?_, ?_, ?_, ?_⟩
  · intro m1 m2 ha hb
    rw [ha] at hb
    injection hb
  · rintro rfl
    exact check_file_empty f w
  · intro hlen
    rcases List.length_eq_one.mp hlen with ⟨b, rfl⟩
    exact check_file_one_byte f b w
  · intro hlen hlast m hm
    have h' := getLast?_eq_of_getLastD _ hlast
    rcases readlines_getLast?_newline bs h' with h1 | ⟨p, hp⟩
    · exact absurd (by rw [h1]; rfl) hlen
    · cases hv : utf8Valid bs with
      | true =>
        rw [check_file_trailing f bs p w hv hp] at hm
        injection hm with hm1
        left
        rw [← hm1]
        rfl
      | false =>
        rw [check_file_trailing_invalid f bs p w hv hp] at hm
        injection hm with hm1
        right
        rw [← hm1]
        rfl
  · intro hlen hlast hw
    subst hw
    exact check_file_no_finding f bs true hlen hlast (Or.inl rfl)

/-- C6, witness: the empty-file conjunct at the empty file. -/
theorem claim_C6_witness : check_file "f" [] false = none :=
  (claim_C6_priority "f" [] false).2.1 rfl

/-- C7, counterexample: the claim says a non-UTF-8 file with no
trailing-newline and no DOS-newline defect produces no finding; the
one-byte file `0xFF` is not valid UTF-8 and has neither defect, yet
`check_file` returns the bare-single-byte finding. -/
theorem claim_C7_counterexample :
    utf8Valid [255] = false ∧
      (readlines [255]).getLastD [] ≠ [NEWLINE] ∧
      (∀ l ∈ readlines [255], is_dos_line l = false) ∧
      check_file "f" [255] false ≠ none := by decide

/-- C7 (amended): decode errors are reported, never raised, and decoding
happens only on fix paths — for every file whose bytes are not valid
UTF-8, the raised error is real (the scanner reports one); if the
trailing-newline guard holds, `check_file` returns the decode-failure
finding with `original` and `replacement` absent and a description built
from the fixed prefix, the error's class name `UnicodeDecodeError` and the
error's message; if the DOS scan fires on a non-native-CRLF platform, it
likewise returns that decode-failure finding; and if the file is longer
than one byte and triggers neither fix path, no decode is attempted and no
finding is produced.  (A one-byte invalid file is flagged by the
bare-single-byte check, which involves no decoding.) -/
theorem claim_C7_decode_failure (f : String) (bs : List Nat) (w : Bool)
    (hv : utf8Valid bs = false) :
    (∃ e, utf8Scan 0 0 0 0 0 bs = some e) ∧
      ((∃ p, bs = p ++ [NEWLINE, NEWLINE]) →
        check_file f bs w =
            some (decode_failure_message f (unicode_decode_error_message bs)) ∧
          (decode_failure_message f (unicode_decode_error_message bs)).original = none ∧
          (decode_failure_message f (unicode_decode_error_message bs)).replacement = none ∧
          (decode_failure_message f (unicode_decode_error_message bs)).description =
            "utf-8 decoding failed due to " ++ "UnicodeDecodeError" ++ ":\x0a"
              ++ unicode_decode_error_message bs) ∧
      (bs.length ≠ 1 → (∃ l ∈ readlines bs, is_dos_line l = true) →
        (readlines bs).getLastD [] ≠ [NEWLINE] → w = false →
        check_file f bs w =
          some (decode_failure_message f (unicode_decode_error_message bs))) ∧
      (bs.length ≠ 1 → (readlines bs).getLastD [] ≠ [NEWLINE] →
        (w = true ∨ ∀ l ∈ readlines bs, is_dos_line l = false) →
        check_file f bs w = none) := by
  refine ⟨utf8Scan_some_of_invalid bs hv, ?_, ?_, ?_⟩
  · rintro ⟨p, hp⟩
    exact ⟨check_file_trailing_invalid f bs p w hv hp, rfl, rfl, rfl⟩
  · intro hlen hex hlast hw
    subst hw
    exact check_file_dos_invalid f bs hv (List.any_eq_true.mpr hex) hlen hlast
  · intro hlen hlast hor
    apply check_file_no_finding f bs w hlen hlast
    rcases hor with hw | hall
    · exact Or.inl hw
    · refine Or.inr (List.any_eq_false.mpr ?_)
      intro x hx hcon
      rw [hall x hx] at hcon
      exact absurd hcon (by simp)

/-- C7, witness: the trailing-fix conjunct applied to the invalid file
`"\xff\x0a\x0a"`, whose error message is
`\x27utf-8\x27 codec can\x27t decode byte 0xff in position 0: invalid start byte`. -/
theorem claim_C7_witness :
    check_file "f" [255, 10, 10] false =
        some (decode_failure_message "f" (unicode_decode_error_message [255, 10, 10])) ∧
      (decode_failure_message "f"
        (unicode_decode_error_message [255, 10, 10])).original = none ∧
      (decode_failure_message "f"
        (unicode_decode_error_message [255, 10, 10])).replacement = none ∧
      (decode_failure_message "f"
        (unicode_decode_error_message [255, 10, 10])).description =
        "utf-8 decoding failed due to " ++ "UnicodeDecodeError" ++ ":\x0a"
          ++ unicode_decode_error_message [255, 10, 10] :=
  (claim_C7_decode_failure "f" [255, 10, 10] false (by decide)).2.1 ⟨[255], rfl⟩

/-- C8: on a native-CRLF platform, a file all of whose lines end in
`0x0D 0x0A` (so it matches neither the bare-single-byte case nor the
trailing-newline case) yields no finding — the DOS scan is skipped. -/
theorem claim_C8_windows_exemption (f : String) (bs : List Nat)
    (h : ∀ l ∈ readlines bs, is_dos_line l = true) :
    check_file f bs true = none := by
  by_cases hne : bs = []
  · subst hne
    exact check_file_empty f true
  · apply check_file_no_finding f bs true
    · intro hlen
      rcases List.length_eq_one.mp hlen with ⟨b, rfl⟩
      have hb := h [b] (by rw [readlines_singleton]; exact List.mem_cons_self _ _)
      rcases (is_dos_line_iff _).mp hb with ⟨p, hp⟩
      have hlen2 := congrArg List.length hp
      simp at hlen2
    · intro hlast
      have h' := getLast?_eq_of_getLastD _ hlast
      have hmem : [NEWLINE] ∈ readlines bs := List.mem_of_getLast?_eq_some h'
      have hdos := h [NEWLINE] hmem
      rcases (is_dos_line_iff _).mp hdos with ⟨p, hp⟩
      have hlen2 := congrArg List.length hp
      simp at hlen2
    · exact Or.inl rfl

/-- C8, witness: the theorem applied to the all-CRLF file `"a\x0d\x0a"`. -/
theorem claim_C8_witness : check_file "f" [97, 13, 10] true = none :=
  claim_C8_windows_exemption "f" [97, 13, 10] (by decide)

/-- C9: in every finding `check_file` returns, `original` and `replacement`
are either both present or both absent. -/
theorem claim_C9_original_replacement_paired (f : String) (bs : List Nat) (w : Bool) :
    (check_file f bs w).all
      (fun m => m.original.isSome == m.replacement.isSome) = true := by
  by_cases hne : bs = []
  · subst hne
    rw [check_file_empty]
    rfl
  · by_cases hlen : bs.length = 1
    · rcases List.length_eq_one.mp hlen with ⟨b, rfl⟩
      rw [check_file_one_byte]
      rfl
    · by_cases hlast : (readlines bs).getLastD [] = [NEWLINE]
      · have h' := getLast?_eq_of_getLastD _ hlast
        rcases readlines_getLast?_newline bs h' with h1 | ⟨p, hp⟩
        · exact absurd (by rw [h1]; rfl) hlen
        · cases hv : utf8Valid bs with
          | true =>
            rw [check_file_trailing f bs p w hv hp]
            rfl
          | false =>
            rw [check_file_trailing_invalid f bs p w hv hp]
            rfl
      · rw [check_file_past_trailing f bs w hne hlen hlast]
        cases w with
        | true =>
          rw [if_pos rfl]
          rfl
        | false =>
          rw [if_neg (by simp : ¬(false = true))]
          by_cases hany : (readlines bs).any is_dos_line = true
          · rw [if_pos hany]
            cases hd1 : decode_utf8 bs with
            | none =>
              simp only [hd1]
              rfl
            | some o =>
              cases hd2 : decode_utf8 (((readlines bs).map fix_line).flatten) with
              | none =>
                simp only [hd1, hd2]
                rfl
              | some r =>
                simp only [hd1, hd2]
                rfl
          · rw [if_neg hany]
            rfl

/-- C10: `check_file` is deterministic — two invocations on the same path,
the same byte content and the same platform flag return the same result,
field for field. -/
theorem claim_C10_deterministic (f : String) (bs : List Nat) (w : Bool)
    (m1 m2 : LintMessage)
    (h1 : check_file f bs w = some m1) (h2 : check_file f bs w = some m2) :
    m1 = m2 ∧ m1.path = m2.path ∧ m1.name = m2.name ∧ m1.severity = m2.severity ∧
      m1.original = m2.original ∧ m1.replacement = m2.replacement ∧
      m1.description = m2.description := by
  rw [h1] at h2
  injection h2 with h3
  subst h3
  exact ⟨rfl, rfl, rfl, rfl, rfl, rfl, rfl⟩

/-- C10, witness: the theorem applied to the bare-newline file. -/
theorem claim_C10_witness :
    bare_message "f" = bare_message "f" ∧
      (bare_message "f").path = (bare_message "f").path ∧
      (bare_message "f").name = (bare_message "f").name ∧
      (bare_message "f").severity = (bare_message "f").severity ∧
      (bare_message "f").original = (bare_message "f").original ∧
      (bare_message "f").replacement = (bare_message "f").replacement ∧
      (bare_message "f").description = (bare_message "f").description :=
  claim_C10_deterministic "f" [10] false (bare_message "f") (bare_message "f")
    (by decide) (by decide)

example : readlines [97, 10, 98] = [[97, 10], [98]] := by decide
example : check_file "f" [] false = none := by decide
example : check_file "f" [10] false = some (bare_message "f") := by decide
example : check_file "f" [65] false = some (bare_message "f") := by decide
example : check_file "f" [104, 101, 108, 108, 111, 10] false = none := by decide
example :
    check_file "f" [104, 101, 108, 108, 111, 10, 10] false =
      some (trailing_message "f" [104, 101, 108, 108, 111, 10, 10]) := by decide
example :
    (trailing_message "f" [104, 101, 108, 108, 111, 10, 10]).replacement =
      some [104, 101, 108, 108, 111, 10] := by decide
example :
    check_file "f" [97, 13, 10, 98, 13, 10] false =
      some (dos_message "f" [97, 13, 10, 98, 13, 10] [97, 10, 98, 10]) := by decide
example : check_file "f" [97, 13, 10, 98, 13, 10] true = none := by decide
example : removeCRLF [97, 13, 10, 98, 13, 10] = [97, 10, 98, 10] := by decide
example : utf8Valid [255] = false := by decide
example : check_file "f" [255] false = some (bare_message "f") := by decide
example :
    check_file "f" [255, 10, 10] false =
      some (decode_failure_message "f"
        (unicode_decode_error_message [255, 10, 10])) := by decide
example :
    unicode_decode_error_message [255, 10, 10] =
      "\x27utf-8\x27 codec can\x27t decode byte 0xff in position 0: invalid start byte" := by
  decide
example :
    unicode_decode_error_message [97, 194, 10, 10] =
      "\x27utf-8\x27 codec can\x27t decode byte 0xc2 in position 1: invalid continuation byte" := by
  decide
example :
    unicode_decode_error_message [225, 128, 10] =
      "\x27utf-8\x27 codec can\x27t decode bytes in position 0-1: invalid continuation byte" := by
  decide
example :
    unicode_decode_error_message [97, 225, 128] =
      "\x27utf-8\x27 codec can\x27t decode bytes in position 1-2: unexpected end of data" := by
  decide
example :
    unicode_decode_error_message [194] =
      "\x27utf-8\x27 codec can\x27t decode byte 0xc2 in position 0: unexpected end of data" := by
  decide

end NewlinesLinter
